import Mathlib

/-! Shallow embedding of the 3d-ct-viewer2 pipeline:
  * `src/dicom-parser.js` — `processDicomFolder` (slice acceptance, ordering,
    volume assembly, global 8-bit normalization) and the element-header part of
    `parseDicom`'s tag loop;
  * `src/dicom-parser-fixed.js` — the variant tag loop's overrun recovery;
  * the unnamed renderer file — `VolumeRenderer.loadVolume` atlas packing and
    the ray-marching fragment shader.

JS numbers are modelled as exact integers/rationals (ℤ, ℚ); typed-array stores
use the ECMAScript conversions (ToUint8/ToUint16/ToInt16 = wrap modulo 2^8/2^16).
-/

namespace CT3D

/-- ECMAScript ToUint8: the conversion applied when a JS number is stored into a
`Uint8Array` (wrap modulo 256; `Int.emod` by 256 is already in `[0, 256)`). -/
def jsToUint8 (v : Int) : Nat := (v % 256).toNat

/-- JS `Math.round` on an exact rational: round half toward positive infinity. -/
def jsRound (q : ℚ) : Int := ⌊q + 1/2⌋

/-- Typed pixel buffer extracted by `parseDicom`: `Uint8Array`, `Uint16Array`
or `Int16Array` (src/dicom-parser.js lines 118-131). -/
inductive PixelArray where
  | u8 (vals : List Nat)
  | u16 (vals : List Nat)
  | i16 (vals : List Int)
deriving DecidableEq

def PixelArray.length : PixelArray → Nat
  | .u8 v => v.length
  | .u16 v => v.length
  | .i16 v => v.length

/-- The element values as JS numbers (all three typed arrays read back as plain
numbers). -/
def PixelArray.valsInt : PixelArray → List Int
  | .u8 v => v.map Int.ofNat
  | .u16 v => v.map Int.ofNat
  | .i16 v => v

/-- Model of `TypedArray.prototype.slice(0, n)` — keeps the array's element type. -/
def PixelArray.take (p : PixelArray) (n : Nat) : PixelArray :=
  match p with
  | .u8 v => .u8 (v.take n)
  | .u16 v => .u16 (v.take n)
  | .i16 v => .i16 (v.take n)

/-- Model of `new Uint8Array(n)` followed by `.set(p)` (src/dicom-parser.js lines
286-287): every source element is converted by ToUint8 and the tail stays zero.
(Used only when `p.length < n`; JS would throw otherwise.) -/
def PixelArray.padTo (p : PixelArray) (n : Nat) : PixelArray :=
  .u8 (p.valsInt.map jsToUint8 ++ List.replicate (n - p.length) 0)

/-- Test `data instanceof Uint16Array || data instanceof Int16Array`. -/
def PixelArray.is16 : PixelArray → Bool
  | .u8 _ => false
  | .u16 _ => true
  | .i16 _ => true

/-- Test `data instanceof Int16Array`. -/
def PixelArray.isSigned16 : PixelArray → Bool
  | .i16 _ => true
  | .u8 _ => false
  | .u16 _ => false

/-- Result of `parseDicom` for one file, paired with the file's name
(`file.name` is modelled as a list of character codes, since only ordering and
equality of names are ever used). `instanceTag` is `metadata['00200013']`
(InstanceNumber), absent when the tag was not in the file. -/
structure ParsedDicom where
  pixelData : Option PixelArray
  instanceTag : Option Int
  rows : Nat
  columns : Nat
  fileName : List Nat
deriving DecidableEq

/-- One slice record as pushed onto `slices` by `processDicomFolder`
(src/dicom-parser.js lines 273-295). `instanceNumber` is
`dicomData.metadata['00200013'] || 0`. -/
structure SliceRec where
  data : PixelArray
  instanceTag : Option Int
  instanceNumber : Int
  rows : Nat
  columns : Nat
  fileName : List Nat
deriving DecidableEq

/-- The per-file acceptance logic of `processDicomFolder`
(src/dicom-parser.js lines 267-300): require non-empty pixel data; if the
sample count reaches the file's own `rows*columns` take exactly that many
samples; otherwise accept only when more than 100 samples are present,
zero-padding on the right; else drop the file. -/
def acceptFile (d : ParsedDicom) : Option SliceRec :=
  match d.pixelData with
  | none => none
  | some pd =>
    if 0 < pd.length then
      let expectedPixels := d.rows * d.columns
      if expectedPixels ≤ pd.length then
        some { data := pd.take expectedPixels, instanceTag := d.instanceTag,
               instanceNumber := d.instanceTag.getD 0, rows := d.rows,
               columns := d.columns, fileName := d.fileName }
      else if 100 < pd.length then
        some { data := pd.padTo expectedPixels, instanceTag := d.instanceTag,
               instanceNumber := d.instanceTag.getD 0, rows := d.rows,
               columns := d.columns, fileName := d.fileName }
      else none
    else none

/-- The sort key relation of the comparator at src/dicom-parser.js lines
313-319: since `instanceNumber` is always a number (`|| 0`), the comparator is
always `(a.instanceNumber || 0) - (b.instanceNumber || 0)`. -/
def sliceLe (a b : SliceRec) : Prop := a.instanceNumber ≤ b.instanceNumber

instance : DecidableRel sliceLe := fun a b =>
  inferInstanceAs (Decidable (a.instanceNumber ≤ b.instanceNumber))

instance : IsTotal SliceRec sliceLe := ⟨fun a b => Int.le_total a.instanceNumber b.instanceNumber⟩

instance : IsTrans SliceRec sliceLe := ⟨fun _ _ _ h1 h2 => le_trans h1 h2⟩

/-- Model of `slices.sort(comparator)`: JS `Array.prototype.sort` is stable (ES2019),
and a stable sort by a total preorder is a unique function of its input, so it
is modelled by insertion sort with the comparator's key order (`insertionSort`
with a `≤`-style relation keeps tied elements in their original order). -/
def sortSlices (slices : List SliceRec) : List SliceRec :=
  List.insertionSort sliceLe slices

/-- Element type chosen for `volumeData` (src/dicom-parser.js lines 329-343). -/
inductive VolKind where
  | u8K
  | u16K
  | i16K
deriving DecidableEq

/-- The `is16Bit`/`isSigned` detection over the accepted slices
(src/dicom-parser.js lines 329, 335). -/
def volKindOf (slices : List SliceRec) : VolKind :=
  if slices.any (fun s => s.data.is16) then
    if slices.any (fun s => s.data.isSigned16) then VolKind.i16K else VolKind.u16K
  else VolKind.u8K

/-- The ECMAScript conversion applied when storing a number into the typed
`volumeData` array (ToUint8 / ToUint16 / ToInt16). -/
def storeConv : VolKind → Int → Int
  | .u8K, v => v % 256
  | .u16K, v => v % 65536
  | .i16K, v => ((v + 32768) % 65536) - 32768

/-- Value `rows * cols` of the first ordered slice (src/dicom-parser.js lines
322-323; `0` for the empty list, which the pipeline never reaches). -/
def firstSliceSize (slices : List SliceRec) : Nat :=
  match slices with
  | [] => 0
  | s0 :: _ => s0.rows * s0.columns

/-- Contribution of one slice to `volumeData` (src/dicom-parser.js lines
346-353): positions `z*sliceSize + i` receive `sliceData[i]` (converted by the
typed store) for `i < min sliceSize sliceData.length`; the remaining positions
of the slice's block keep their zero initialization.  The write loop touches
each index exactly once, so the loop is modelled block-constructively. -/
def fillSliceData (sliceSize : Nat) (k : VolKind) (vals : List Int) : List Int :=
  (vals.take sliceSize).map (storeConv k) ++ List.replicate (sliceSize - vals.length) 0

/-- The assembled (pre-normalization) `volumeData` as a flat list, slice blocks
in depth order. -/
def rawVolume (slices : List SliceRec) : List Int :=
  slices.flatMap (fun s => fillSliceData (firstSliceSize slices) (volKindOf slices) s.data.valsInt)

/-- Model of `Math.max(...Array.from(l))` (`0` stands in for the empty case, where JS
yields `-Infinity`; the pipeline only evaluates this on non-empty data). -/
def listMaxI (l : List Int) : Int := l.foldl max (l.headD 0)

/-- Model of `Math.min(...Array.from(l))` (see `listMaxI` about the empty case). -/
def listMinI (l : List Int) : Int := l.foldl min (l.headD 0)

/-- Model of `const range = maxVal - minVal || 1` (src/dicom-parser.js line 359). -/
def volRange (vol : List Int) : Int :=
  if listMaxI vol - listMinI vol = 0 then 1 else listMaxI vol - listMinI vol

/-- The per-voxel normalization map of src/dicom-parser.js line 363 (before the
`Uint8Array` store): `Math.round(((v - minVal) / range) * 255)`. -/
def normalizeValue (minV range v : Int) : Int :=
  jsRound ((((v : ℚ) - (minV : ℚ)) / (range : ℚ)) * 255)

/-- The final 8-bit data (src/dicom-parser.js lines 355-369): when a 16-bit
slice is present, normalize each voxel with the global min/max
(`range = maxVal - minVal || 1`) and store `Math.round(((v - min) / range) * 255)`
into a `Uint8Array`; otherwise `volumeData` is already the 8-bit result. -/
def finalData (slices : List SliceRec) (vol : List Int) : List Nat :=
  if volKindOf slices = VolKind.u8K then vol.map Int.toNat
  else vol.map (fun v => jsToUint8 (normalizeValue (listMinI vol) (volRange vol) v))

/-- The pipeline's result value `{ data, dimensions: [cols, rows, depth] }`. -/
structure Volume where
  data : List Nat
  dims : Nat × Nat × Nat
deriving DecidableEq

/-- Builds the returned volume from the ordered slices (src/dicom-parser.js
lines 321-376).  The `[]` arm is unreachable: `processDicomFolder` only calls
this on a non-empty list. -/
def volumeOf (sorted : List SliceRec) : Volume :=
  match sorted with
  | [] => { data := [], dims := (0, 0, 0) }
  | s0 :: _ =>
    { data := finalData sorted (rawVolume sorted),
      dims := (s0.columns, s0.rows, sorted.length) }

/-- Model of `processDicomFolder` (src/dicom-parser.js lines 255-377) on the per-file
parse results: accept/drop each file, throw when nothing was accepted, else
sort and assemble. -/
def processDicomFolder (files : List ParsedDicom) : Except String Volume :=
  let slices := files.filterMap acceptFile
  if slices.isEmpty then
    Except.error ("No valid DICOM files found with pixel data")
  else
    Except.ok (volumeOf (sortSlices slices))

/-- Lexicographic order on source identifiers (character-code lists), used only
by the spec-modelled ordering rule below. -/
def lexLe : List Nat → List Nat → Bool
  | [], _ => true
  | _ :: _, [] => false
  | a :: as, b :: bs => if a < b then true else if b < a then false else lexLe as bs

/-- Modelled from the spec: claim C3's ordering rule — "ascending instance
index when every record carries one, otherwise lexicographic by source file
name, with ties broken by the original enumeration order" (stable sorts). -/
def specC3Order (slices : List SliceRec) : List SliceRec :=
  if slices.all (fun s => s.instanceTag.isSome) then
    List.insertionSort (fun a b => a.instanceNumber ≤ b.instanceNumber) slices
  else
    List.insertionSort (fun a b => lexLe a.fileName b.fileName = true) slices

/-- Modelled from the spec: claim C4's acceptance rule — sample count `≥` the
FIRST record's rows×columns, or below that but strictly more than 100 samples. -/
def claimC4rule (firstRC count : Nat) : Bool :=
  (firstRC ≤ count) || (count < firstRC && 100 < count)

/-- Model of `view.getUint8(i)`.  The tag loop's guard `offset < byteLength - 8` keeps
every modelled read in bounds, so the out-of-bounds default is never hit under
the theorems' hypotheses. -/
def readUInt8 (buf : List Nat) (i : Nat) : Nat := buf.getD i 0

/-- Model of `view.getUint16(i, true)` (little endian). -/
def readUInt16LE (buf : List Nat) (i : Nat) : Nat :=
  readUInt8 buf i + 256 * readUInt8 buf (i + 1)

/-- Model of `view.getUint32(i, true)` (little endian). -/
def readUInt32LE (buf : List Nat) (i : Nat) : Nat :=
  readUInt16LE buf i + 65536 * readUInt16LE buf (i + 2)

/-- Membership test `['OB','OW','OF','SQ','UT','UN'].includes(vr)`; a VR is a
pair of character codes ('O' = 79, 'B' = 66, 'W' = 87, 'F' = 70, 'S' = 83,
'Q' = 81, 'U' = 85, 'T' = 84, 'N' = 78). -/
def isLongVR (vr : Nat × Nat) : Bool :=
  vr == (79, 66) || vr == (79, 87) || vr == (79, 70) ||
  vr == (83, 81) || vr == (85, 84) || vr == (85, 78)

/-- One decoded element header: tag pair, VR code, declared value length and
the offset of the value bytes. -/
structure ElemHeader where
  group : Nat
  elem : Nat
  vr : Nat × Nat
  len : Nat
  valueOffset : Nat
deriving DecidableEq

/-- Header decode portion of the tag loop (src/dicom-parser.js lines 62-108):
tag pair, VR, then a 4-byte length for the long-VR class — possibly preceded by
an interleaved non-zero 4-byte "group length" that is detected and skipped —
or a 2-byte length otherwise.  `none` models the loop's `break` when too few
bytes remain for the length field.  The `else`-side repeat of the long-VR test
(lines 89-98) is provably dead and omitted.  src/dicom-parser-fixed.js lines
62-117 decode identically (its extra early `break`s fire under exactly the
same conditions); the fixed variant's additional `offset + 8 > byteLength`
pre-check appears in `parseStepFixed`. -/
def decodeElementHeader (buf : List Nat) (offset : Nat) : Option ElemHeader :=
  let group := readUInt16LE buf offset
  let elem := readUInt16LE buf (offset + 2)
  let vr := (readUInt8 buf (offset + 4), readUInt8 buf (offset + 5))
  if isLongVR vr then
    let o1 := offset + 6
    let o2 := if o1 + 4 ≤ buf.length && readUInt32LE buf o1 != 0 then o1 + 4 else o1
    if o2 + 4 ≤ buf.length then
      some { group := group, elem := elem, vr := vr,
             len := readUInt32LE buf o2, valueOffset := o2 + 4 }
    else none
  else
    let o1 := offset + 6
    if o1 + 2 ≤ buf.length then
      some { group := group, elem := elem, vr := vr,
             len := readUInt16LE buf o1, valueOffset := o1 + 2 }
    else none

/-- Outcome of one tag-loop iteration: `halt` = `break`; `skipTo n` = abandon
the element and `continue` from offset `n`; `element h n` = the element is in
bounds, is processed, and the loop continues at offset `n`.  There is no error
outcome: the loop never throws to the caller (its `try`/`catch` swallows any
exception and resumes). -/
inductive StepResult where
  | halt
  | skipTo (next : Nat)
  | element (h : ElemHeader) (next : Nat)
deriving DecidableEq

/-- Odd-length alignment padding (src/dicom-parser.js lines 196-198): one byte
unless the VR is SQ (83, 81) or UT (85, 84). -/
def padAfter (h : ElemHeader) : Nat :=
  if h.len % 2 = 1 && !(h.vr == ((83 : Nat), (81 : Nat))) && !(h.vr == ((85 : Nat), (84 : Nat))) then 1 else 0

/-- One iteration of the strict variant's tag loop (src/dicom-parser.js lines
60-206): when the declared length would read past the buffer end
(`valueOffset + length > byteLength`, lines 110-114) the element is abandoned
and the loop stops. -/
def parseStepStrict (buf : List Nat) (offset : Nat) : StepResult :=
  match decodeElementHeader buf offset with
  | none => StepResult.halt
  | some h =>
    if buf.length < h.valueOffset + h.len then StepResult.halt
    else StepResult.element h (h.valueOffset + h.len + padAfter h)

/-- One iteration of the bounds-hardened variant's tag loop
(src/dicom-parser-fixed.js lines 60-220): same decode, but an overrunning
element is abandoned by resynchronizing at its value offset
(`offset = valueOffset; continue`, lines 119-125). -/
def parseStepFixed (buf : List Nat) (offset : Nat) : StepResult :=
  if buf.length < offset + 8 then StepResult.halt
  else
    match decodeElementHeader buf offset with
    | none => StepResult.halt
    | some h =>
      if buf.length < h.valueOffset + h.len then StepResult.skipTo h.valueOffset
      else StepResult.element h (h.valueOffset + h.len + padAfter h)

/-- Linear search for the least `m ≥ start` with `n ≤ m * m` (enough fuel is
always supplied). -/
def ceilSqrtAux (n : Nat) : Nat → Nat → Nat
  | 0, m => m
  | fuel + 1, m => if n ≤ m * m then m else ceilSqrtAux n fuel (m + 1)

/-- Model of `Math.ceil(Math.sqrt(n))` for a whole number `n`: the least `m` with
`n ≤ m * m` (see `natCeilSqrt_spec`), which is the exact value of the
ceiling of the real square root. -/
def natCeilSqrt (n : Nat) : Nat := ceilSqrtAux n (n + 1) 0

/-- The sequence of texture writes performed by the atlas fill loop of
`VolumeRenderer.loadVolume` (unnamed renderer file, lines 541-558), in loop
order: slice `z` goes to grid cell (row `z / slicesPerRow`, column
`z % slicesPerRow`), guarded by the source/destination bounds checks, storing
`Math.max(0, Math.min(255, Math.round(v)))` (= `min v 255` for natural `v`). -/
def atlasWrites (data : List Nat) (W H D spr texW texSize : Nat) : List (Nat × Nat) :=
  (List.range D).flatMap fun z =>
    (List.range H).flatMap fun y =>
      (List.range W).filterMap fun x =>
        let volumeIdx := z * W * H + y * W + x
        let texIdx := ((z / spr) * H + y) * texW + ((z % spr) * W + x)
        if volumeIdx < data.length ∧ texIdx < texSize then
          some (texIdx, min (data.getD volumeIdx 0) 255)
        else none

/-- The packed atlas texture of `VolumeRenderer.loadVolume` (lines 528-558,
the branch where `data.length = width*height*depth`): a zero-initialized
`Uint8Array` of `texWidth * texHeight` receiving the fill loop's writes. -/
def atlasPack (data : List Nat) (W H D : Nat) : List Nat :=
  let spr := natCeilSqrt D
  let rws := (D + spr - 1) / spr
  let texW := spr * W
  let texH := rws * H
  (atlasWrites data W H D spr texW (texW * texH)).foldl
    (fun l iv => l.set iv.1 iv.2) (List.replicate (texW * texH) 0)

/-! Fragment shader (`fragmentShaderSource` in the unnamed renderer file).
GLSL floats are modelled as exact rationals; `texture2D` lookups are an
abstract function parameter `tex` (the GPU sampler is external to the shader
code).  The shader is embedded from the point where the view ray has been
rotated and normalized: the rotation applies `cos`/`sin` of uniforms, which
are transcendental, so the rotated direction is the embedding's input.
Rational division is total with `x / 0 = 0`; in GLSL a division by zero is
an unspecified value, and the theorems below never depend on that case except
where explicitly noted.
-/

abbrev Vec3 := ℚ × ℚ × ℚ

abbrev Vec4 := ℚ × ℚ × ℚ × ℚ

/-- GLSL `clamp`. -/
def clampQ (x lo hi : ℚ) : ℚ := max lo (min x hi)

/-- GLSL `floor`, as a rational. -/
def glslFloor (x : ℚ) : ℚ := (⌊x⌋ : ℚ)

/-- GLSL `fract`. -/
def glslFract (x : ℚ) : ℚ := x - glslFloor x

/-- GLSL `mod(x, y) = x - y * floor(x / y)`. -/
def glslMod (x y : ℚ) : ℚ := x - y * glslFloor (x / y)

/-- GLSL `mix(x, y, a) = x * (1 - a) + y * a`. -/
def glslMix (x y a : ℚ) : ℚ := x * (1 - a) + y * a

/-- GLSL `ceil(sqrt(q))` for `q > 0`: an integer `m ≥ 0` satisfies
`m ≥ sqrt q` iff `m * m ≥ q` iff `m * m ≥ ⌈q⌉`, so the value is
`natCeilSqrt ⌈q⌉` exactly (for `q ≤ 0` the shader only reaches this with a
loaded volume, i.e. `q ≥ 1`; `0` is a junk value there). -/
def qCeilSqrt (q : ℚ) : ℚ :=
  if q ≤ 0 then 0 else (natCeilSqrt (⌈q⌉.toNat) : ℚ)

/-- The shader uniforms describing the atlas layout. -/
structure ShaderUniforms where
  textureWidth : ℚ
  textureHeight : ℚ
  slices : ℚ
  volumeSize : Vec3

/-- The user-driven render parameters (threshold, opacity, window level/width
uniforms). -/
structure RenderParams where
  threshold : ℚ
  opacity : ℚ
  windowLevel : ℚ
  windowWidth : ℚ

/-- Model of `sampleVolume(pos)` (shader lines 112-150): clamp the query position to
`[0.001, 0.999]`, locate the slice's atlas cell, sample, and linearly
interpolate with the next slice by the fractional depth (skipped on the last
slice). -/
def sampleVolume (tex : ℚ → ℚ → ℚ) (u : ShaderUniforms) (pos0 : Vec3) : ℚ :=
  let pos : Vec3 := (clampQ pos0.1 (1/1000) (999/1000),
                     clampQ pos0.2.1 (1/1000) (999/1000),
                     clampQ pos0.2.2 (1/1000) (999/1000))
  let sliceF := pos.2.2 * u.slices
  let sliceIdx := glslFloor sliceF
  let sliceFrac := glslFract sliceF
  let slicesPerRow := qCeilSqrt u.slices
  let row := glslFloor (sliceIdx / slicesPerRow)
  let col := glslMod sliceIdx slicesPerRow
  let sliceOffX := col * u.volumeSize.1 / u.textureWidth
  let sliceOffY := row * u.volumeSize.2.1 / u.textureHeight
  let uvX := pos.1 * (u.volumeSize.1 / u.textureWidth) + sliceOffX
  let uvY := pos.2.1 * (u.volumeSize.2.1 / u.textureHeight) + sliceOffY
  let value1 := tex uvX uvY
  if sliceFrac > 0 ∧ sliceIdx < u.slices - 1 then
    let nextSliceIdx := sliceIdx + 1
    let nextRow := glslFloor (nextSliceIdx / slicesPerRow)
    let nextCol := glslMod nextSliceIdx slicesPerRow
    let nextOffX := nextCol * u.volumeSize.1 / u.textureWidth
    let nextOffY := nextRow * u.volumeSize.2.1 / u.textureHeight
    let value2 := tex (uvX - sliceOffX + nextOffX) (uvY - sliceOffY + nextOffY)
    glslMix value1 value2 sliceFrac
  else value1

/-- The compositing arm of the marching loop (shader lines 245-257): greyscale
color from intensity, `alpha = intensity * opacity * 0.05`, front-to-back
accumulation. -/
def accumulateSample (p : RenderParams) (intensity : ℚ) (accColor : Vec4) (accAlpha : ℚ) : Vec4 × ℚ :=
  let alpha := intensity * p.opacity * (1/20)
  ((accColor.1 + intensity * alpha * (1 - accAlpha),
    accColor.2.1 + intensity * alpha * (1 - accAlpha),
    accColor.2.2.1 + intensity * alpha * (1 - accAlpha),
    accColor.2.2.2 + alpha * (1 - accAlpha)),
   accAlpha + alpha * (1 - accAlpha))

/-- Window/level plus threshold test for one sample (shader lines 236-258):
`normalizedDensity = clamp((density - windowMin) / (windowMax - windowMin), 0, 1)`
with `windowMin/Max = windowLevel ∓ windowWidth * 0.5`; the sample is
composited iff `normalizedDensity > threshold / 255`. -/
def compositeSample (p : RenderParams) (density : ℚ) (accColor : Vec4) (accAlpha : ℚ) : Vec4 × ℚ :=
  let windowMin := p.windowLevel - p.windowWidth * (1/2)
  let windowMax := p.windowLevel + p.windowWidth * (1/2)
  let normalizedDensity := clampQ ((density - windowMin) / (windowMax - windowMin)) 0 1
  if normalizedDensity > p.threshold / 255 then
    accumulateSample p normalizedDensity accColor accAlpha
  else (accColor, accAlpha)

/-- State of the marching loop: current position, accumulated color (a vec4,
whose `w` also accumulates but is unused at the end), accumulated alpha, and
the `steps` counter. -/
structure MarchState where
  pos : Vec3
  accColor : Vec4
  accAlpha : ℚ
  steps : Nat

/-- The ray-marching loop (shader lines 221-263): at most 200 iterations,
breaking when accumulated alpha reaches 0.95, when `steps > 200`, or when the
position leaves `[0,1]` on any axis; otherwise sample, composite, advance. -/
def marchLoop (tex : ℚ → ℚ → ℚ) (u : ShaderUniforms) (p : RenderParams) (stepV : Vec3) :
    Nat → MarchState → MarchState
  | 0, st => st
  | n + 1, st =>
    if st.accAlpha ≥ 19/20 ∨ st.steps > 200 then st
    else if st.pos.1 < 0 ∨ st.pos.1 > 1 ∨ st.pos.2.1 < 0 ∨ st.pos.2.1 > 1 ∨
            st.pos.2.2 < 0 ∨ st.pos.2.2 > 1 then st
    else
      let density := sampleVolume tex u st.pos
      let acc2 := compositeSample p density st.accColor st.accAlpha
      marchLoop tex u p stepV n
        { pos := (st.pos.1 + stepV.1, st.pos.2.1 + stepV.2.1, st.pos.2.2 + stepV.2.2),
          accColor := acc2.1, accAlpha := acc2.2, steps := st.steps + 1 }

/-- Rational division made partial: `none` exactly when the divisor is zero
(the case GLSL leaves unspecified). -/
def divQChecked (x y : ℚ) : Option ℚ := if y = 0 then none else some (x / y)

/-- The final output step (shader lines 265-270): un-premultiply
(`accumulatedColor.rgb / accumulatedAlpha`) only when `accumulatedAlpha > 0`,
else output transparent `(0,0,0,0)`.  The divisions use `divQChecked`, so a
division by zero would surface as `none`. -/
def finalizeFragment (st : MarchState) : Option Vec4 :=
  if st.accAlpha > 0 then
    (divQChecked st.accColor.1 st.accAlpha).bind fun r =>
      (divQChecked st.accColor.2.1 st.accAlpha).bind fun g =>
        (divQChecked st.accColor.2.2.1 st.accAlpha).map fun b =>
          (r, g, b, st.accAlpha)
  else some (0, 0, 0, 0)

/-- The fragment computation from the slab test onward (shader lines 206-271):
reject (`tNear > tFar || tFar < 0`) with opaque black background; otherwise
march from `rayOrigin + rayDir * max(0, tNear)` with step `rayDir * 0.005` and
finalize. -/
def intersectAndMarch (tex : ℚ → ℚ → ℚ) (u : ShaderUniforms) (p : RenderParams)
    (dir : Vec3) (tNear tFar : ℚ) : Option Vec4 :=
  if tNear > tFar ∨ tFar < 0 then some (0, 0, 0, 1)
  else
    finalizeFragment (marchLoop tex u p
      (dir.1 * (1/200), dir.2.1 * (1/200), dir.2.2 * (1/200)) 200
      { pos := (1/2 + dir.1 * max 0 tNear, 1/2 + dir.2.1 * max 0 tNear,
                1/2 + dir.2.2 * max 0 tNear),
        accColor := (0, 0, 0, 0), accAlpha := 0, steps := 0 })

/-- The slab intersection (shader lines 196-203) for `rayOrigin = (0.5,0.5,0.5)`
against the unit cube, with total rational division standing in for GLSL's
unspecified division by zero. -/
def slabIntersect (dir : Vec3) : ℚ × ℚ :=
  let t1 : Vec3 := ((0 - 1/2) / dir.1, (0 - 1/2) / dir.2.1, (0 - 1/2) / dir.2.2)
  let t2 : Vec3 := ((1 - 1/2) / dir.1, (1 - 1/2) / dir.2.1, (1 - 1/2) / dir.2.2)
  (max (max (min t1.1 t2.1) (min t1.2.1 t2.2.1)) (min t1.2.2 t2.2.2),
   min (min (max t1.1 t2.1) (max t1.2.1 t2.2.1)) (max t1.2.2 t2.2.2))

/-- Full fragment computation for a rotated, normalized ray direction. -/
def fragmentColor (tex : ℚ → ℚ → ℚ) (u : ShaderUniforms) (p : RenderParams)
    (dir : Vec3) : Option Vec4 :=
  intersectAndMarch tex u p dir (slabIntersect dir).1 (slabIntersect dir).2

/-- Claim C8's tangent assertion, as stated: whenever the slab test yields
`tNear == tFar`, the fragment is the background color. -/
def claimC8tangent : Prop :=
  ∀ (tex : ℚ → ℚ → ℚ) (u : ShaderUniforms) (p : RenderParams) (dir : Vec3) (t : ℚ),
    intersectAndMarch tex u p dir t t = some (0, 0, 0, 1)

/-! Concrete fixtures used by witnesses and counterexamples. -/

/-- One 8-bit 1×2 slice file. -/
def c1files : List ParsedDicom :=
  [{ pixelData := some (.u8 [3, 4]), instanceTag := some 1, rows := 1, columns := 2,
     fileName := [100] }]

/-- The volume the pipeline produces from `c1files`. -/
def c1vol : Volume := { data := [3, 4], dims := (2, 1, 1) }

/-- One signed 16-bit 1×3 slice file with samples `[-200, 800, 300]`. -/
def c2files : List ParsedDicom :=
  [{ pixelData := some (.i16 [-200, 800, 300]), instanceTag := some 1, rows := 1,
     columns := 3, fileName := [99] }]

/-- The slice record the pipeline accepts from `c2files`. -/
def c2rec : SliceRec :=
  { data := .i16 [-200, 800, 300], instanceTag := some 1, instanceNumber := 1,
    rows := 1, columns := 3, fileName := [99] }

/-- Two files: the first (named "b" = [98]) carries no InstanceNumber tag, the
second (named "a" = [97]) carries instance index 5. -/
def c3files : List ParsedDicom :=
  [{ pixelData := some (.u8 [5]), instanceTag := none, rows := 1, columns := 1,
     fileName := [98] },
   { pixelData := some (.u8 [7]), instanceTag := some 5, rows := 1, columns := 1,
     fileName := [97] }]

/-- Four 4×4 slices with instance indices `[3, 1, 4, 2]` (claim C3's scenario). -/
def c3scen : List ParsedDicom :=
  [{ pixelData := some (.u8 (List.replicate 16 10)), instanceTag := some 3, rows := 4,
     columns := 4, fileName := [102, 49] },
   { pixelData := some (.u8 (List.replicate 16 20)), instanceTag := some 1, rows := 4,
     columns := 4, fileName := [102, 50] },
   { pixelData := some (.u8 (List.replicate 16 30)), instanceTag := some 4, rows := 4,
     columns := 4, fileName := [102, 51] },
   { pixelData := some (.u8 (List.replicate 16 40)), instanceTag := some 2, rows := 4,
     columns := 4, fileName := [102, 52] }]

/-- First file of the C4 counterexample batch: 101×1 with exactly 101 samples. -/
def c4fileA : ParsedDicom :=
  { pixelData := some (.u8 (List.replicate 101 0)), instanceTag := none, rows := 101,
    columns := 1, fileName := [97] }

/-- Second file of the C4 counterexample batch: 4×4 with exactly 16 samples
(16 ≤ 100, and 16 is below the first record's 101 samples). -/
def c4fileB : ParsedDicom :=
  { pixelData := some (.u8 [1, 2, 3, 4, 5, 6, 7, 8, 9, 10, 11, 12, 13, 14, 15, 16]),
    instanceTag := none, rows := 4, columns := 4, fileName := [98] }

def c4files : List ParsedDicom := [c4fileA, c4fileB]

/-- A 20×20 file with only 101 samples: accepted through the pad branch. -/
def c4padDemo : ParsedDicom :=
  { pixelData := some (.u8 (List.replicate 101 5)), instanceTag := none, rows := 20,
    columns := 20, fileName := [99] }

/-- A batch whose single file yields no pixel data. -/
def c6bad : List ParsedDicom :=
  [{ pixelData := none, instanceTag := none, rows := 1, columns := 1, fileName := [120] }]

/-- A batch whose single file yields one 1×1 sample. -/
def c6good : List ParsedDicom :=
  [{ pixelData := some (.u8 [7]), instanceTag := none, rows := 1, columns := 1,
     fileName := [102] }]

/-- A 1×2 file with 3 samples (one more than rows×columns). -/
def c10file : ParsedDicom :=
  { pixelData := some (.u8 [1, 2, 3]), instanceTag := none, rows := 1, columns := 2,
    fileName := [97] }

/-- Claim C7's scenario buffer: an element at offset 0 with tag (0008,0018),
short VR 'US' (85, 83), declared length 10000 (bytes 16, 39 little-endian) and
value offset 8, followed by only 50 remaining bytes. -/
def c7buf : List Nat := [8, 0, 24, 0, 85, 83, 16, 39] ++ List.replicate 50 0

/-- The header the decoder extracts at offset 0 of `c7buf`. -/
def c7hdr : ElemHeader :=
  { group := 8, elem := 24, vr := (85, 83), len := 10000, valueOffset := 8 }

/-- The all-zero texture sampler. -/
def texZero : ℚ → ℚ → ℚ := fun _ _ => 0

/-- A trivial 1×1×1 atlas layout. -/
def u0 : ShaderUniforms :=
  { textureWidth := 1, textureHeight := 1, slices := 1, volumeSize := (1, 1, 1) }

/-- The renderer's default parameters (threshold 100, opacity 0.8,
window level 128, window width 256 — renderer `init`, lines 66-69). -/
def p0 : RenderParams :=
  { threshold := 100, opacity := 4/5, windowLevel := 128, windowWidth := 256 }

/-! Helper lemmas. -/

theorem take_length (p : PixelArray) (n : Nat) : (p.take n).length = min n p.length := by
  cases p <;> simp [PixelArray.take, PixelArray.length]

theorem valsInt_length (p : PixelArray) : p.valsInt.length = p.length := by
  cases p <;> simp only [PixelArray.valsInt, PixelArray.length, List.length_map]

theorem padTo_length {p : PixelArray} {n : Nat} (h : p.length ≤ n) : (p.padTo n).length = n := by
  show (p.valsInt.map jsToUint8 ++ List.replicate (n - p.length) 0).length = n
  rw [List.length_append, List.length_map, valsInt_length, List.length_replicate]
  omega

theorem filter_orderedInsert_of_neg {α : Type} (r : α → α → Prop) [DecidableRel r]
    (p : α → Bool) (a : α) (hpa : p a = false) :
    ∀ l : List α, (l.orderedInsert r a).filter p = l.filter p := by
  intro l
  induction l with
  | nil => simp [List.filter_cons, hpa]
  | cons b t ih =>
    simp only [List.orderedInsert]
    by_cases hr : r a b
    · rw [if_pos hr, List.filter_cons, if_neg (by simp [hpa])]
    · rw [if_neg hr, List.filter_cons, List.filter_cons, ih]

theorem filter_orderedInsert_of_pos {α : Type} (r : α → α → Prop) [DecidableRel r]
    (p : α → Bool) (a : α) (hpa : p a = true) (hdown : ∀ b, ¬ r a b → p b = false) :
    ∀ l : List α, (l.orderedInsert r a).filter p = a :: l.filter p := by
  intro l
  induction l with
  | nil => simp [List.filter_cons, hpa]
  | cons b t ih =>
    simp only [List.orderedInsert]
    by_cases hr : r a b
    · rw [if_pos hr, List.filter_cons, if_pos hpa]
    · rw [if_neg hr, List.filter_cons, if_neg (by simp [hdown b hr]), ih, List.filter_cons,
        if_neg (by simp [hdown b hr])]

theorem sortSlices_filter_key (k : Int) :
    ∀ l : List SliceRec,
      (sortSlices l).filter (fun s => s.instanceNumber == k) =
        l.filter (fun s => s.instanceNumber == k) := by
  intro l
  induction l with
  | nil => rfl
  | cons a t ih =>
    have hstep : sortSlices (a :: t) = (sortSlices t).orderedInsert sliceLe a := rfl
    rw [hstep]
    by_cases hpa : (a.instanceNumber == k) = true
    · have hk : a.instanceNumber = k := by simpa using hpa
      rw [filter_orderedInsert_of_pos sliceLe _ a hpa ?_ (sortSlices t), ih, List.filter_cons,
        if_pos hpa]
      intro b hb
      have : b.instanceNumber < a.instanceNumber := by
        simpa [sliceLe] using hb
      simp only [beq_eq_false_iff_ne, ne_eq]
      omega
    · have hpa' : (a.instanceNumber == k) = false := by simpa using hpa
      rw [filter_orderedInsert_of_neg sliceLe _ a hpa' (sortSlices t), ih, List.filter_cons,
        if_neg (by simp [hpa'])]

/-! Claim theorems. -/

/-- Claim C3 (corrected), counterexample: with two accepted records — the first
(file "b") carrying no instance tag, the second (file "a") carrying index 5 —
the code orders by the defaulted numeric index (missing tag ⇒ 0), keeping
"b" before "a", while the claimed rule ("otherwise lexicographic by source
file name") would order "a" before "b".  The comparator's file-name branch is
unreachable because `instanceNumber` is always a number. -/
theorem c3_counterexample :
    (sortSlices (c3files.filterMap acceptFile)).map (fun s => s.fileName) = [[98], [97]] ∧
    (specC3Order (c3files.filterMap acceptFile)).map (fun s => s.fileName) = [[97], [98]] ∧
    sortSlices (c3files.filterMap acceptFile) ≠ specC3Order (c3files.filterMap acceptFile) := by
  decide

/-- Claim C3 (amended): the assembly order is ascending stored instance index,
a record without the tag getting index 0, with ties broken by the original
enumeration order (the sort is stable: for each key the records with that key
keep their original relative order); in particular 4 slices with instance
indices [3,1,4,2] sort to depth order [1,2,3,4]. -/
theorem c3_sort_order :
    (∀ l : List SliceRec,
      (sortSlices l).Perm l ∧ List.Sorted sliceLe (sortSlices l) ∧
      ∀ k : Int, (sortSlices l).filter (fun s => s.instanceNumber == k) =
        l.filter (fun s => s.instanceNumber == k)) ∧
    (sortSlices (c3scen.filterMap acceptFile)).map (fun s => s.instanceNumber) = [1, 2, 3, 4] := by
  constructor
  · intro l
    exact ⟨List.perm_insertionSort sliceLe l, List.sorted_insertionSort sliceLe l,
      fun k => sortSlices_filter_key k l⟩
  · decide

/-- Claim C4 (corrected), counterexample: in the batch `[c4fileA, c4fileB]` the
code accepts both files — `c4fileB` has 16 samples, equal to its OWN 4×4 size —
although the claimed rule (sample count ≥ the FIRST record's rows×columns =
101, or > 100 samples) classifies `c4fileB` (16 samples ≤ 100) as dropped. -/
theorem c4_counterexample :
    (c4files.filterMap acceptFile).map (fun s => s.fileName) = [[97], [98]] ∧
    c4fileA.rows * c4fileA.columns = 101 ∧
    c4fileB.pixelData.map PixelArray.length = some 16 ∧
    claimC4rule 101 16 = false := by
  decide

/-- Claim C4 (amended): a slice record is accepted into assembly iff it has
non-empty pixel data and its sample count is ≥ its OWN declared rows×columns,
or its sample count is below that but strictly greater than 100, in which case
it is zero-padded on the right to its own rows×columns; a record with ≤ 100
samples and fewer samples than its own rows×columns is dropped. -/
theorem c4_acceptance :
    ∀ d : ParsedDicom,
      ((acceptFile d).isSome = true ↔
        ∃ pd, d.pixelData = some pd ∧ 0 < pd.length ∧
          (d.rows * d.columns ≤ pd.length ∨ 100 < pd.length)) ∧
      (∀ pd r, d.pixelData = some pd → pd.length < d.rows * d.columns →
        acceptFile d = some r → r.data = pd.padTo (d.rows * d.columns)) := by
  intro d
  constructor
  · cases hpd : d.pixelData with
    | none => simp [acceptFile, hpd]
    | some pd =>
      simp only [acceptFile, hpd]
      by_cases h0 : 0 < pd.length
      · rw [if_pos h0]
        by_cases h1 : d.rows * d.columns ≤ pd.length
        · rw [if_pos h1]
          simp only [Option.isSome_some, true_iff]
          exact ⟨pd, rfl, h0, Or.inl h1⟩
        · rw [if_neg h1]
          by_cases h2 : 100 < pd.length
          · rw [if_pos h2]
            simp only [Option.isSome_some, true_iff]
            exact ⟨pd, rfl, h0, Or.inr h2⟩
          · rw [if_neg h2]
            constructor
            · intro hf
              simp at hf
            · rintro ⟨pd', hpd', hlen, hor⟩
              rw [Option.some.injEq] at hpd'
              subst hpd'
              omega
      · rw [if_neg h0]
        constructor
        · intro hf
          simp at hf
        · rintro ⟨pd', hpd', hlen, hor⟩
          rw [Option.some.injEq] at hpd'
          subst hpd'
          omega
  · intro pd r hpd hlt hacc
    simp only [acceptFile, hpd] at hacc
    by_cases h0 : 0 < pd.length
    · rw [if_pos h0, if_neg (by omega : ¬ d.rows * d.columns ≤ pd.length)] at hacc
      by_cases h2 : 100 < pd.length
      · rw [if_pos h2, Option.some.injEq] at hacc
        rw [← hacc]
      · rw [if_neg h2] at hacc
        exact absurd hacc (by simp)
    · rw [if_neg h0] at hacc
      exact absurd hacc (by simp)

/-- Witness for claim C4's amended theorem: `c4padDemo` (20×20, 101 samples) is
accepted and padded to 400 samples. -/
theorem c4_acceptance_witness :
    (acceptFile c4padDemo).isSome = true ∧
    ∃ r, acceptFile c4padDemo = some r ∧
      r.data = (PixelArray.u8 (List.replicate 101 5)).padTo (20 * 20) := by
  have h1 : (acceptFile c4padDemo).isSome = true :=
    (c4_acceptance c4padDemo).1.mpr ⟨PixelArray.u8 (List.replicate 101 5), rfl, by decide,
      Or.inr (by decide)⟩
  obtain ⟨r, hr⟩ := Option.isSome_iff_exists.mp h1
  exact ⟨h1, r, hr, (c4_acceptance c4padDemo).2 _ r rfl (by decide) hr⟩

/-- Claim C6: when every file in the batch is dropped the pipeline throws
(`No valid DICOM files found with pixel data`) and constructs no Volume; when
at least one slice is accepted a Volume is always returned. -/
theorem c6_empty_batch_fatal :
    ∀ files : List ParsedDicom,
      ((∃ e, processDicomFolder files = Except.error e) ↔ files.filterMap acceptFile = []) ∧
      (files.filterMap acceptFile ≠ [] → ∃ v, processDicomFolder files = Except.ok v) := by
  intro files
  by_cases h : files.filterMap acceptFile = []
  · constructor
    · exact ⟨fun _ => h,
        fun _ => ⟨"No valid DICOM files found with pixel data",
          by simp [processDicomFolder, h]⟩⟩
    · exact fun hne => absurd h hne
  · have hempty : (files.filterMap acceptFile).isEmpty = false := by
      simpa [List.isEmpty_iff] using h
    constructor
    · constructor
      · rintro ⟨e, he⟩
        simp [processDicomFolder, hempty] at he
      · intro h'
        exact absurd h' h
    · intro _
      exact ⟨volumeOf (sortSlices (files.filterMap acceptFile)),
        by simp [processDicomFolder, hempty]⟩

/-- Witness for claim C6: a batch with no usable pixel data throws; a batch
with one accepted slice yields a Volume. -/
theorem c6_witness :
    (∃ e, processDicomFolder c6bad = Except.error e) ∧
    (∃ v, processDicomFolder c6good = Except.ok v) :=
  ⟨(c6_empty_batch_fatal c6bad).1.mpr (by decide),
   (c6_empty_batch_fatal c6good).2 (by decide)⟩

/-- Claim C10: every slice record accepted into assembly holds exactly
rows×columns samples — longer pixel data is truncated to the first
rows×columns samples, shorter (but accepted) data is zero-padded to that
length. -/
theorem c10_accepted_record_length :
    ∀ (d : ParsedDicom) (pd : PixelArray) (r : SliceRec),
      d.pixelData = some pd → acceptFile d = some r →
      r.data.length = r.rows * r.columns ∧ r.rows = d.rows ∧ r.columns = d.columns ∧
      (d.rows * d.columns ≤ pd.length → r.data = pd.take (d.rows * d.columns)) ∧
      (pd.length < d.rows * d.columns → r.data = pd.padTo (d.rows * d.columns)) := by
  intro d pd r hpd hacc
  simp only [acceptFile, hpd] at hacc
  by_cases h0 : 0 < pd.length
  · rw [if_pos h0] at hacc
    by_cases h1 : d.rows * d.columns ≤ pd.length
    · rw [if_pos h1, Option.some.injEq] at hacc
      subst hacc
      refine ⟨?_, rfl, rfl, fun _ => rfl, fun hlt => absurd h1 (by omega)⟩
      show (pd.take (d.rows * d.columns)).length = d.rows * d.columns
      rw [take_length]
      omega
    · rw [if_neg h1] at hacc
      by_cases h2 : 100 < pd.length
      · rw [if_pos h2, Option.some.injEq] at hacc
        subst hacc
        refine ⟨?_, rfl, rfl, fun hle => absurd hle h1, fun _ => rfl⟩
        show (pd.padTo (d.rows * d.columns)).length = d.rows * d.columns
        rw [padTo_length (by omega)]
      · rw [if_neg h2] at hacc
        exact absurd hacc (by simp)
  · rw [if_neg h0] at hacc
    exact absurd hacc (by simp)

/-- Witness for claim C10: a 1×2 file with 3 samples is stored with exactly
2 = rows×columns samples. -/
theorem c10_witness :
    ∃ r, acceptFile c10file = some r ∧ r.data.length = r.rows * r.columns := by
  have hacc : acceptFile c10file = some
      { data := PixelArray.u8 [1, 2], instanceTag := none, instanceNumber := 0,
        rows := 1, columns := 2, fileName := [97] } := by decide
  exact ⟨_, hacc, (c10_accepted_record_length c10file (PixelArray.u8 [1, 2, 3]) _ rfl hacc).1⟩

theorem length_flatMap_const {γ : Type} (l : List γ) (f : γ → List Int) (n : Nat)
    (h : ∀ x ∈ l, (f x).length = n) : (l.flatMap f).length = l.length * n := by
  induction l with
  | nil => simp
  | cons a t ih =>
    rw [List.flatMap_cons, List.length_append, h a (List.mem_cons_self a t),
      ih (fun x hx => h x (List.mem_cons_of_mem a hx)), List.length_cons]
    ring

theorem fillSliceData_length (n : Nat) (k : VolKind) (vals : List Int) :
    (fillSliceData n k vals).length = n := by
  rw [fillSliceData, List.length_append, List.length_map, List.length_take,
    List.length_replicate]
  omega

theorem rawVolume_length (slices : List SliceRec) :
    (rawVolume slices).length = slices.length * firstSliceSize slices :=
  length_flatMap_const slices _ _ (fun x _ => fillSliceData_length _ _ _)

theorem finalData_length (slices : List SliceRec) (vol : List Int) :
    (finalData slices vol).length = vol.length := by
  rw [finalData]
  split <;> rw [List.length_map]

/-- Claim C1: whenever the pipeline returns a Volume, its flat data sequence
has exactly width×height×depth elements, where width/height are the
columns/rows of the first ordered slice record and depth is the number of
accepted records. -/
theorem c1_assembled_volume_size :
    ∀ (files : List ParsedDicom) (v : Volume),
      processDicomFolder files = Except.ok v →
      ∃ s0 rest, sortSlices (files.filterMap acceptFile) = s0 :: rest ∧
        v.dims = (s0.columns, s0.rows, (files.filterMap acceptFile).length) ∧
        v.data.length = s0.columns * s0.rows * (files.filterMap acceptFile).length := by
  intro files v hok
  simp only [processDicomFolder] at hok
  by_cases h : (files.filterMap acceptFile).isEmpty
  · rw [if_pos h] at hok
    exact absurd hok (by simp)
  · rw [if_neg h] at hok
    have hv : v = volumeOf (sortSlices (files.filterMap acceptFile)) := (Except.ok.inj hok).symm
    have hlen : (sortSlices (files.filterMap acceptFile)).length =
        (files.filterMap acceptFile).length :=
      (List.perm_insertionSort sliceLe (files.filterMap acceptFile)).length_eq
    have hne : sortSlices (files.filterMap acceptFile) ≠ [] := by
      intro hnil
      rw [hnil] at hlen
      have : files.filterMap acceptFile = [] := List.eq_nil_of_length_eq_zero hlen.symm
      simp [this] at h
    obtain ⟨s0, rest, hcons⟩ : ∃ s0 rest, sortSlices (files.filterMap acceptFile) = s0 :: rest := by
      cases hsort : sortSlices (files.filterMap acceptFile) with
      | nil => exact absurd hsort hne
      | cons a t => exact ⟨a, t, rfl⟩
    rw [hcons] at hlen
    refine ⟨s0, rest, hcons, ?_, ?_⟩
    · rw [hv, hcons]
      show (s0.columns, s0.rows, (s0 :: rest).length) =
        (s0.columns, s0.rows, (files.filterMap acceptFile).length)
      rw [hlen]
    · rw [hv, hcons]
      show (finalData (s0 :: rest) (rawVolume (s0 :: rest))).length =
        s0.columns * s0.rows * (files.filterMap acceptFile).length
      rw [finalData_length, rawVolume_length, hlen]
      show (files.filterMap acceptFile).length * (s0.rows * s0.columns) =
        s0.columns * s0.rows * (files.filterMap acceptFile).length
      ring

/-- Witness for claim C1: a one-file batch yields the volume `[3, 4]` with
dimensions (2, 1, 1), and 2 = 2·1·1. -/
theorem c1_witness :
    processDicomFolder c1files = Except.ok c1vol ∧
    c1vol.data.length = c1vol.dims.1 * c1vol.dims.2.1 * c1vol.dims.2.2 := by
  have hok : processDicomFolder c1files = Except.ok c1vol := rfl
  obtain ⟨s0, rest, hs, hd, hl⟩ := c1_assembled_volume_size c1files c1vol hok
  refine ⟨hok, ?_⟩
  rw [hd]
  exact hl

theorem foldl_max_le_init : ∀ (l : List Int) (a : Int), a ≤ l.foldl max a := by
  intro l
  induction l with
  | nil => exact fun a => le_refl a
  | cons b t ih =>
    intro a
    exact le_trans (le_max_left a b) (ih (max a b))

theorem le_foldl_max : ∀ (l : List Int) (a x : Int), x ∈ l → x ≤ l.foldl max a := by
  intro l
  induction l with
  | nil => intro a x hx; exact absurd hx (List.not_mem_nil x)
  | cons b t ih =>
    intro a x hx
    rcases List.mem_cons.mp hx with h | h
    · subst h
      exact le_trans (le_max_right a x) (foldl_max_le_init t (max a x))
    · exact ih (max a b) x h

theorem foldl_min_le_init : ∀ (l : List Int) (a : Int), l.foldl min a ≤ a := by
  intro l
  induction l with
  | nil => exact fun a => le_refl a
  | cons b t ih =>
    intro a
    exact le_trans (ih (min a b)) (min_le_left a b)

theorem foldl_min_le : ∀ (l : List Int) (a x : Int), x ∈ l → l.foldl min a ≤ x := by
  intro l
  induction l with
  | nil => intro a x hx; exact absurd hx (List.not_mem_nil x)
  | cons b t ih =>
    intro a x hx
    rcases List.mem_cons.mp hx with h | h
    · subst h
      exact le_trans (foldl_min_le_init t (min a x)) (min_le_right a x)
    · exact ih (min a b) x h

theorem mem_le_listMaxI {vol : List Int} {v : Int} (h : v ∈ vol) : v ≤ listMaxI vol :=
  le_foldl_max vol (vol.headD 0) v h

theorem listMinI_le_mem {vol : List Int} {v : Int} (h : v ∈ vol) : listMinI vol ≤ v :=
  foldl_min_le vol (vol.headD 0) v h

theorem volRange_pos (vol : List Int) {v : Int} (hmem : v ∈ vol) : 1 ≤ volRange vol := by
  have hmin := listMinI_le_mem hmem
  have hmax := mem_le_listMaxI hmem
  rw [volRange]
  split
  · exact le_refl 1
  · omega

theorem normalizeValue_bounds {vol : List Int} {v : Int} (hmem : v ∈ vol) :
    0 ≤ normalizeValue (listMinI vol) (volRange vol) v ∧
    normalizeValue (listMinI vol) (volRange vol) v ≤ 255 := by
  have hmin := listMinI_le_mem hmem
  have hmax := mem_le_listMaxI hmem
  have hr := volRange_pos vol hmem
  have hnum : v - listMinI vol ≤ volRange vol := by
    rw [volRange]
    split
    · omega
    · omega
  have hrq : (1 : ℚ) ≤ (volRange vol : ℚ) := by exact_mod_cast hr
  have hrq0 : (0 : ℚ) < (volRange vol : ℚ) := lt_of_lt_of_le (by norm_num) hrq
  have hratio0 : (0 : ℚ) ≤ ((v : ℚ) - (listMinI vol : ℚ)) / (volRange vol : ℚ) := by
    apply div_nonneg _ (le_of_lt hrq0)
    have : (listMinI vol : ℚ) ≤ (v : ℚ) := by exact_mod_cast hmin
    linarith
  have hratio1 : ((v : ℚ) - (listMinI vol : ℚ)) / (volRange vol : ℚ) ≤ 1 := by
    rw [div_le_one hrq0]
    exact_mod_cast hnum
  constructor
  · rw [normalizeValue, jsRound]
    apply Int.le_floor.mpr
    push_cast
    nlinarith
  · rw [normalizeValue, jsRound]
    have hle : (((v : ℚ) - (listMinI vol : ℚ)) / (volRange vol : ℚ)) * 255 + 1/2 ≤ 511/2 := by
      nlinarith
    calc ⌊(((v : ℚ) - (listMinI vol : ℚ)) / (volRange vol : ℚ)) * 255 + 1/2⌋
        ≤ ⌊(511 : ℚ)/2⌋ := Int.floor_le_floor hle
      _ = 255 := by norm_num

theorem jsToUint8_cast {x : Int} (h0 : 0 ≤ x) (h255 : x ≤ 255) : (jsToUint8 x : Int) = x := by
  rw [jsToUint8, Int.toNat_of_nonneg (Int.emod_nonneg x (by norm_num)),
    Int.emod_eq_of_lt h0 (by omega)]

theorem getD_map_of_lt {α β : Type} (f : α → β) (l : List α) (i : Nat) (d : α) (d' : β)
    (h : i < l.length) : (l.map f).getD i d' = f (l.getD i d) := by
  rw [List.getD_eq_getElem?_getD, List.getD_eq_getElem?_getD, List.getElem?_map,
    List.getElem?_eq_getElem h]
  rfl

theorem getD_mem_of_lt (l : List Int) (i : Nat) (h : i < l.length) : l.getD i 0 ∈ l := by
  rw [List.getD_eq_getElem?_getD, List.getElem?_eq_getElem h]
  simp only [Option.getD_some]
  exact List.getElem_mem h

theorem volKindOf_u8K_iff (l : List SliceRec) :
    volKindOf l = VolKind.u8K ↔ l.any (fun s => s.data.is16) = false := by
  rw [volKindOf]
  by_cases h : l.any (fun s => s.data.is16) = true
  · rw [if_pos h]
    split <;> simp [h]
  · rw [if_neg h]
    have h' : l.any (fun s => s.data.is16) = false := by
      cases hb : l.any (fun s => s.data.is16) with
      | true => exact absurd hb h
      | false => rfl
    simp [h']

/-- Claim C2: when a 16-bit slice is present, the pipeline's output voxels are
exactly the globally normalized assembled field — each value is
`Math.round(((v - min) / range) * 255)` with the minimum/maximum taken over
the entire assembled volume and `range = max - min || 1`; in particular a
voxel of 300 with global min −200 and max 800 normalizes to 128. -/
theorem c2_global_normalization :
    (∀ (files : List ParsedDicom) (v : Volume),
      processDicomFolder files = Except.ok v →
      (sortSlices (files.filterMap acceptFile)).any (fun s => s.data.is16) = true →
      ∀ i, i < v.data.length →
        (v.data.getD i 0 : Int) =
          normalizeValue (listMinI (rawVolume (sortSlices (files.filterMap acceptFile))))
            (volRange (rawVolume (sortSlices (files.filterMap acceptFile))))
            ((rawVolume (sortSlices (files.filterMap acceptFile))).getD i 0)) ∧
    normalizeValue (-200) 1000 300 = 128 := by
  constructor
  · intro files v hok h16 i hi
    simp only [processDicomFolder] at hok
    by_cases h : (files.filterMap acceptFile).isEmpty
    · rw [if_pos h] at hok
      exact absurd hok (by simp)
    rw [if_neg h] at hok
    have hv : v = volumeOf (sortSlices (files.filterMap acceptFile)) := (Except.ok.inj hok).symm
    obtain ⟨s0, rest, hcons⟩ : ∃ s0 rest, sortSlices (files.filterMap acceptFile) = s0 :: rest := by
      cases hsort : sortSlices (files.filterMap acceptFile) with
      | nil =>
        rw [hsort] at h16
        simp [List.any_nil] at h16
      | cons a t => exact ⟨a, t, rfl⟩
    have hdata : v.data = finalData (sortSlices (files.filterMap acceptFile))
        (rawVolume (sortSlices (files.filterMap acceptFile))) := by
      rw [hv, hcons]
      rfl
    have hnotu8 : volKindOf (sortSlices (files.filterMap acceptFile)) ≠ VolKind.u8K := by
      intro hk
      rw [(volKindOf_u8K_iff _).mp hk] at h16
      exact absurd h16 (by simp)
    have hfin : v.data = (rawVolume (sortSlices (files.filterMap acceptFile))).map
        (fun w => jsToUint8 (normalizeValue
          (listMinI (rawVolume (sortSlices (files.filterMap acceptFile))))
          (volRange (rawVolume (sortSlices (files.filterMap acceptFile)))) w)) := by
      rw [hdata, finalData, if_neg hnotu8]
    have hilt : i < (rawVolume (sortSlices (files.filterMap acceptFile))).length := by
      rw [hfin, List.length_map] at hi
      exact hi
    rw [hfin, getD_map_of_lt _ _ i 0 0 hilt]
    have hb := normalizeValue_bounds
      (getD_mem_of_lt (rawVolume (sortSlices (files.filterMap acceptFile))) i hilt)
    exact jsToUint8_cast hb.1 hb.2
  · rw [normalizeValue, jsRound]
    norm_num

/-- Witness for claim C2: the one-slice signed 16-bit batch `[-200, 800, 300]`
normalizes to `[0, 255, 128]`; the voxel of value 300 maps to 128. -/
theorem c2_witness :
    ∃ v, processDicomFolder c2files = Except.ok v ∧
      (v.data.getD 2 0 : Int) = normalizeValue (-200) 1000 300 ∧
      normalizeValue (-200) 1000 300 = 128 := by
  have hn0 : jsToUint8 (normalizeValue (-200) 1000 (-200)) = 0 := by
    rw [normalizeValue, jsRound, jsToUint8]
    norm_num
  have hn1 : jsToUint8 (normalizeValue (-200) 1000 800) = 255 := by
    rw [normalizeValue, jsRound, jsToUint8]
    norm_num
    decide
  have hn2 : jsToUint8 (normalizeValue (-200) 1000 300) = 128 := by
    rw [normalizeValue, jsRound, jsToUint8]
    norm_num
    decide
  have hmin : listMinI [(-200 : Int), 800, 300] = -200 := rfl
  have hmax : volRange [(-200 : Int), 800, 300] = 1000 := rfl
  have hsort : sortSlices (c2files.filterMap acceptFile) = [c2rec] := rfl
  have hraw2 : rawVolume [c2rec] = [-200, 800, 300] := rfl
  have hdat : finalData [c2rec] [-200, 800, 300] = [0, 255, 128] := by
    rw [finalData, if_neg (by decide)]
    rw [List.map_cons, List.map_cons, List.map_cons, List.map_nil, hmin, hmax, hn0, hn1, hn2]
  have hvol : volumeOf [c2rec] = { data := [0, 255, 128], dims := (3, 1, 1) } := by
    simp only [volumeOf]
    rw [hraw2, hdat]
    rfl
  have hok : processDicomFolder c2files =
      Except.ok { data := [0, 255, 128], dims := (3, 1, 1) } := by
    have h0 : processDicomFolder c2files =
        Except.ok (volumeOf (sortSlices (c2files.filterMap acceptFile))) := rfl
    rw [h0, hsort, hvol]
  refine ⟨_, hok, ?_, by rw [normalizeValue, jsRound]; norm_num⟩
  have h := c2_global_normalization.1 c2files _ hok (by decide) 2 (by decide)
  rw [h, hsort, hraw2, hmin, hmax]
  rfl

theorem ceilSqrtAux_spec (n : Nat) :
    ∀ (fuel m : Nat), (∀ k, k < m → ¬ n ≤ k * k) → n ≤ (m + fuel) * (m + fuel) →
      n ≤ ceilSqrtAux n fuel m * ceilSqrtAux n fuel m ∧
      ∀ k, k < ceilSqrtAux n fuel m → ¬ n ≤ k * k := by
  intro fuel
  induction fuel with
  | zero =>
    intro m hlow hup
    simp only [ceilSqrtAux]
    constructor
    · simpa using hup
    · exact hlow
  | succ fuel ih =>
    intro m hlow hup
    simp only [ceilSqrtAux]
    by_cases h : n ≤ m * m
    · rw [if_pos h]
      exact ⟨h, hlow⟩
    · rw [if_neg h]
      apply ih (m + 1)
      · intro k hk
        by_cases hkm : k < m
        · exact hlow k hkm
        · have hke : k = m := by omega
          rw [hke]
          exact h
      · have he : m + 1 + fuel = m + (fuel + 1) := by omega
        rw [he]
        exact hup

theorem natCeilSqrt_spec (n : Nat) :
    n ≤ natCeilSqrt n * natCeilSqrt n ∧ ∀ m, n ≤ m * m → natCeilSqrt n ≤ m := by
  have h := ceilSqrtAux_spec n (n + 1) 0 (fun k hk => absurd hk (by omega))
    (by nlinarith)
  rw [natCeilSqrt]
  refine ⟨h.1, ?_⟩
  intro m hm
  by_contra hc
  exact h.2 m (by omega) hm

theorem natCeilSqrt_pos {n : Nat} (hn : 1 ≤ n) : 0 < natCeilSqrt n := by
  have h := (natCeilSqrt_spec n).1
  by_contra hc
  have h0 : natCeilSqrt n = 0 := by omega
  rw [h0] at h
  omega

theorem ceilDiv_spec (D spr : Nat) (hspr : 0 < spr) (hD : 1 ≤ D) :
    D ≤ spr * ((D + spr - 1) / spr) ∧ spr * ((D + spr - 1) / spr - 1) < D := by
  have hmod := Nat.div_add_mod (D + spr - 1) spr
  have hr : (D + spr - 1) % spr < spr := Nat.mod_lt _ hspr
  constructor
  · omega
  · cases hq : (D + spr - 1) / spr with
    | zero =>
      simp only [Nat.zero_sub, Nat.mul_zero]
      omega
    | succ qq =>
      rw [hq] at hmod
      have hmul : spr * (qq + 1) = spr * qq + spr := by ring
      simp only [Nat.succ_sub_one]
      omega

theorem grid_index_lt {B Q q r : Nat} (hq : q < Q) (hr : r < B) : q * B + r < Q * B := by
  have h1 : (q + 1) * B = q * B + B := by ring
  have h2 : (q + 1) * B ≤ Q * B := Nat.mul_le_mul_right B (by omega)
  omega

theorem grid_index_div {B q r : Nat} (hr : r < B) : (q * B + r) / B = q := by
  have hB : 0 < B := by omega
  rw [Nat.mul_comm q B, Nat.add_comm (B * q) r, Nat.add_mul_div_left r q hB,
    Nat.div_eq_of_lt hr]
  omega

theorem mul_add_decomp {b q x q' x' : Nat} (hx : x < b) (hx' : x' < b)
    (h : q * b + x = q' * b + x') : q = q' ∧ x = x' := by
  have hdiv : (q * b + x) / b = q := grid_index_div hx
  have hdiv' : (q' * b + x') / b = q' := grid_index_div hx'
  have hq : q = q' := by rw [← hdiv, ← hdiv', h]
  refine ⟨hq, ?_⟩
  subst hq
  omega

theorem atlasCell_lt {spr W z x : Nat} (hspr : 0 < spr) (hx : x < W) :
    (z % spr) * W + x < spr * W :=
  grid_index_lt (Nat.mod_lt z hspr) hx

theorem atlasIdx_inj {spr W H : Nat} (hspr : 0 < spr) {z y x z' y' x' : Nat}
    (hy : y < H) (hx : x < W) (hy' : y' < H) (hx' : x' < W)
    (h : ((z / spr) * H + y) * (spr * W) + ((z % spr) * W + x) =
         ((z' / spr) * H + y') * (spr * W) + ((z' % spr) * W + x')) :
    z = z' ∧ y = y' ∧ x = x' := by
  obtain ⟨hout, hin⟩ := mul_add_decomp (atlasCell_lt hspr hx) (atlasCell_lt hspr hx') h
  obtain ⟨hq1, hxx⟩ := mul_add_decomp hx hx' hin
  obtain ⟨hq2, hyy⟩ := mul_add_decomp hy hy' hout
  refine ⟨?_, hyy, hxx⟩
  have d1 := Nat.div_add_mod z spr
  have d2 := Nat.div_add_mod z' spr
  rw [hq2, hq1] at d1
  omega

theorem flat_index_lt {W H D z y x : Nat} (hz : z < D) (hy : y < H) (hx : x < W) :
    z * W * H + y * W + x < W * H * D := by
  have h1 : y * W + x < W * H := by
    have h0 := grid_index_lt hy hx
    have hc : H * W = W * H := Nat.mul_comm H W
    omega
  have h2 : z * (W * H) + (y * W + x) < D * (W * H) := grid_index_lt hz h1
  have h3 : z * W * H + y * W + x = z * (W * H) + (y * W + x) := by ring
  have h4 : D * (W * H) = W * H * D := by ring
  omega

theorem foldl_set_length (ws : List (Nat × Nat)) :
    ∀ init : List Nat, (ws.foldl (fun l iv => l.set iv.1 iv.2) init).length = init.length := by
  induction ws with
  | nil => intro init; rfl
  | cons w ws ih =>
    intro init
    rw [List.foldl_cons, ih (init.set w.1 w.2), List.length_set]

theorem getD_foldl_set_not_mem (ws : List (Nat × Nat)) :
    ∀ (init : List Nat) (t : Nat), (∀ iv ∈ ws, iv.1 ≠ t) →
      (ws.foldl (fun l iv => l.set iv.1 iv.2) init).getD t 0 = init.getD t 0 := by
  induction ws with
  | nil => intro init t _; rfl
  | cons w ws ih =>
    intro init t h
    rw [List.foldl_cons, ih (init.set w.1 w.2) t (fun iv hiv => h iv (List.mem_cons_of_mem w hiv))]
    rw [List.getD_eq_getElem?_getD, List.getD_eq_getElem?_getD,
      List.getElem?_set_ne (h w (List.mem_cons_self w ws))]

theorem getD_set_self (l : List Nat) (t v : Nat) (ht : t < l.length) :
    (l.set t v).getD t 0 = v := by
  rw [List.getD_eq_getElem?_getD, List.getElem?_set_eq ht]
  rfl

theorem getD_foldl_set_unique (ws : List (Nat × Nat)) :
    ∀ (init : List Nat) (t v : Nat), t < init.length →
      (∃ iv ∈ ws, iv.1 = t) → (∀ iv ∈ ws, iv.1 = t → iv.2 = v) →
      (ws.foldl (fun l iv => l.set iv.1 iv.2) init).getD t 0 = v := by
  induction ws with
  | nil =>
    intro init t v _ hex _
    simp at hex
  | cons w ws ih =>
    intro init t v ht hex huniq
    rw [List.foldl_cons]
    by_cases hrest : ∃ iv ∈ ws, iv.1 = t
    · exact ih (init.set w.1 w.2) t v (by rw [List.length_set]; exact ht) hrest
        (fun iv h1 h2 => huniq iv (List.mem_cons_of_mem w h1) h2)
    · have hw : w.1 = t := by
        rcases hex with ⟨iv, hiv, he⟩
        rcases List.mem_cons.mp hiv with h1 | h1
        · rw [← h1]
          exact he
        · exact absurd ⟨iv, h1, he⟩ hrest
      have hv : w.2 = v := huniq w (List.mem_cons_self w ws) hw
      rw [getD_foldl_set_not_mem ws (init.set w.1 w.2) t
        (fun iv h1 h2 => hrest ⟨iv, h1, h2⟩)]
      rw [hw, hv]
      exact getD_set_self init t v ht

theorem mem_atlasWrites {data : List Nat} {W H D spr texW texSize : Nat} {iv : Nat × Nat} :
    iv ∈ atlasWrites data W H D spr texW texSize ↔
      ∃ z y x, z < D ∧ y < H ∧ x < W ∧
        z * W * H + y * W + x < data.length ∧
        ((z / spr) * H + y) * texW + ((z % spr) * W + x) < texSize ∧
        iv = (((z / spr) * H + y) * texW + ((z % spr) * W + x),
              min (data.getD (z * W * H + y * W + x) 0) 255) := by
  simp only [atlasWrites, List.mem_flatMap, List.mem_filterMap, List.mem_range]
  constructor
  · rintro ⟨z, hz, y, hy, x, hx, hif⟩
    by_cases hc : z * W * H + y * W + x < data.length ∧
        ((z / spr) * H + y) * texW + ((z % spr) * W + x) < texSize
    · rw [if_pos hc, Option.some.injEq] at hif
      exact ⟨z, y, x, hz, hy, hx, hc.1, hc.2, hif.symm⟩
    · rw [if_neg hc] at hif
      exact absurd hif (by simp)
  · rintro ⟨z, y, x, hz, hy, hx, h1, h2, he⟩
    exact ⟨z, hz, y, hy, x, hx, by rw [if_pos ⟨h1, h2⟩, he]⟩

/-- Claim C5: for a Volume of depth D ≥ 1 with slice width W and height H
(8-bit data of exactly W·H·D samples), the atlas built by `loadVolume` has
dimensions (slicesPerRow·W) × (rows·H) with slicesPerRow = ceil(sqrt D) (the
least m with D ≤ m·m) and rows = ceil(D / slicesPerRow); each slice z is
copied into grid cell (row z / slicesPerRow, column z % slicesPerRow); and
every texel whose grid cell index is ≥ D remains zero. -/
theorem c5_atlas_layout :
    ∀ (data : List Nat) (W H D : Nat),
      1 ≤ D → data.length = W * H * D → (∀ v ∈ data, v ≤ 255) →
      (D ≤ natCeilSqrt D * natCeilSqrt D ∧ ∀ m, D ≤ m * m → natCeilSqrt D ≤ m) ∧
      (D ≤ natCeilSqrt D * ((D + natCeilSqrt D - 1) / natCeilSqrt D) ∧
        natCeilSqrt D * ((D + natCeilSqrt D - 1) / natCeilSqrt D - 1) < D) ∧
      (atlasPack data W H D).length =
        (natCeilSqrt D * W) * (((D + natCeilSqrt D - 1) / natCeilSqrt D) * H) ∧
      (∀ z y x, z < D → y < H → x < W →
        (atlasPack data W H D).getD
          (((z / natCeilSqrt D) * H + y) * (natCeilSqrt D * W) +
            ((z % natCeilSqrt D) * W + x)) 0 =
          data.getD (z * W * H + y * W + x) 0) ∧
      (∀ tx ty, tx < natCeilSqrt D * W →
        ty < ((D + natCeilSqrt D - 1) / natCeilSqrt D) * H →
        D ≤ (ty / H) * natCeilSqrt D + tx / W →
        (atlasPack data W H D).getD (ty * (natCeilSqrt D * W) + tx) 0 = 0) := by
  intro data W H D hD hlen hval
  have hsq := natCeilSqrt_spec D
  have hspr : 0 < natCeilSqrt D := natCeilSqrt_pos hD
  have hrows := ceilDiv_spec D (natCeilSqrt D) hspr hD
  refine ⟨⟨hsq.1, hsq.2⟩, hrows, ?_, ?_, ?_⟩
  · simp only [atlasPack]
    rw [foldl_set_length, List.length_replicate]
  · intro z y x hz hy hx
    have hzdiv : z / natCeilSqrt D < (D + natCeilSqrt D - 1) / natCeilSqrt D := by
      rw [Nat.div_lt_iff_lt_mul hspr]
      calc z < D := hz
        _ ≤ natCeilSqrt D * ((D + natCeilSqrt D - 1) / natCeilSqrt D) := hrows.1
        _ = (D + natCeilSqrt D - 1) / natCeilSqrt D * natCeilSqrt D := by ring
    have htex : ((z / natCeilSqrt D) * H + y) * (natCeilSqrt D * W) +
        ((z % natCeilSqrt D) * W + x) <
        (natCeilSqrt D * W) * (((D + natCeilSqrt D - 1) / natCeilSqrt D) * H) := by
      have htmp := grid_index_lt (grid_index_lt hzdiv hy)
        (@atlasCell_lt (natCeilSqrt D) W z x hspr hx)
      have hc2 : (D + natCeilSqrt D - 1) / natCeilSqrt D * H * (natCeilSqrt D * W) =
          natCeilSqrt D * W * ((D + natCeilSqrt D - 1) / natCeilSqrt D * H) := by
        ring
      omega
    have hvol : z * W * H + y * W + x < data.length := by
      rw [hlen]
      exact flat_index_lt hz hy hx
    simp only [atlasPack]
    rw [getD_foldl_set_unique _ _ _ (min (data.getD (z * W * H + y * W + x) 0) 255)
      (by rw [List.length_replicate]; exact htex)
      ⟨_, mem_atlasWrites.mpr ⟨z, y, x, hz, hy, hx, hvol, htex, rfl⟩, rfl⟩ ?_]
    · have hmem : data.getD (z * W * H + y * W + x) 0 ∈ data := by
        have := hvol
        rw [List.getD_eq_getElem?_getD, List.getElem?_eq_getElem this]
        simp only [Option.getD_some]
        exact List.getElem_mem this
      exact Nat.min_eq_left (hval _ hmem)
    · intro iv hiv h1
      obtain ⟨z', y', x', hz', hy', hx', hvol', htex', he⟩ := mem_atlasWrites.mp hiv
      rw [he] at h1
      simp only at h1
      obtain ⟨e1, e2, e3⟩ := atlasIdx_inj hspr hy' hx' hy hx h1
      rw [he]
      simp only
      rw [e1, e2, e3]
  · intro tx ty htx hty hcell
    simp only [atlasPack]
    rw [getD_foldl_set_not_mem]
    · rw [List.getD_eq_getElem?_getD, List.getElem?_replicate]
      split <;> rfl
    · intro iv hiv he
      obtain ⟨z, y, x, hz, hy, hx, hvol', htex', hiveq⟩ := mem_atlasWrites.mp hiv
      rw [hiveq] at he
      simp only at he
      obtain ⟨e1, e2⟩ := mul_add_decomp (atlasCell_lt hspr hx) htx he
      have hdy : ty / H = z / natCeilSqrt D := by
        rw [← e1]
        exact grid_index_div hy
      have hdx : tx / W = z % natCeilSqrt D := by
        rw [← e2]
        exact grid_index_div hx
      rw [hdy, hdx] at hcell
      have hz2 := Nat.div_add_mod z (natCeilSqrt D)
      have hcomm : z / natCeilSqrt D * natCeilSqrt D = natCeilSqrt D * (z / natCeilSqrt D) := by
        ring
      omega

/-- Witness for claim C5: packing the 1×1×3 volume `[10, 20, 30]` into a 2×2
atlas puts slice 2 at texel 2 and leaves the unused texel 3 at zero. -/
theorem c5_witness :
    (atlasPack [10, 20, 30] 1 1 3).getD 2 0 = 30 ∧
    (atlasPack [10, 20, 30] 1 1 3).getD 3 0 = 0 := by
  have h := c5_atlas_layout [10, 20, 30] 1 1 3 (by decide) (by decide) (by decide)
  have hspr : natCeilSqrt 3 = 2 := by decide
  constructor
  · have hc := h.2.2.2.1 2 0 0 (by decide) (by decide) (by decide)
    rw [hspr] at hc
    simpa using hc
  · have hc := h.2.2.2.2 1 1 (by simp only [hspr]; decide) (by simp only [hspr]; decide)
      (by simp only [hspr]; decide)
    rw [hspr] at hc
    simpa using hc

theorem decodeElementHeader_voff {buf : List Nat} {offset : Nat} {h : ElemHeader}
    (hdec : decodeElementHeader buf offset = some h) : offset + 8 ≤ h.valueOffset := by
  simp only [decodeElementHeader] at hdec
  by_cases hvr : isLongVR (readUInt8 buf (offset + 4), readUInt8 buf (offset + 5)) = true
  · rw [if_pos hvr] at hdec
    by_cases hc1 : (decide (offset + 6 + 4 ≤ buf.length) &&
        (readUInt32LE buf (offset + 6) != 0)) = true
    · rw [if_pos hc1] at hdec
      by_cases hc2 : offset + 6 + 4 + 4 ≤ buf.length
      · rw [if_pos hc2, Option.some.injEq] at hdec
        have hv : h.valueOffset = offset + 6 + 4 + 4 := by rw [← hdec]
        omega
      · rw [if_neg hc2] at hdec
        exact absurd hdec (by simp)
    · rw [if_neg hc1] at hdec
      by_cases hc2 : offset + 6 + 4 ≤ buf.length
      · rw [if_pos hc2, Option.some.injEq] at hdec
        have hv : h.valueOffset = offset + 6 + 4 := by rw [← hdec]
        omega
      · rw [if_neg hc2] at hdec
        exact absurd hdec (by simp)
  · rw [if_neg hvr] at hdec
    by_cases hc2 : offset + 6 + 2 ≤ buf.length
    · rw [if_pos hc2, Option.some.injEq] at hdec
      have hv : h.valueOffset = offset + 6 + 2 := by rw [← hdec]
      omega
    · rw [if_neg hc2] at hdec
      exact absurd hdec (by simp)

/-- Claim C7: when a decoded element declares a length that would read past the
buffer end, neither tag-loop variant raises an error: the strict loop
(src/dicom-parser.js) abandons the element and stops, and the bounds-hardened
loop (src/dicom-parser-fixed.js) abandons it and resynchronizes at the
element's value offset — a strictly larger offset, so decoding continues
forward. -/
theorem c7_overrun_recovery :
    ∀ (buf : List Nat) (offset : Nat) (h : ElemHeader),
      offset + 8 < buf.length →
      decodeElementHeader buf offset = some h →
      buf.length < h.valueOffset + h.len →
      parseStepStrict buf offset = StepResult.halt ∧
      parseStepFixed buf offset = StepResult.skipTo h.valueOffset ∧
      offset < h.valueOffset := by
  intro buf offset h hguard hdec hover
  have hvo := decodeElementHeader_voff hdec
  refine ⟨?_, ?_, by omega⟩
  · simp only [parseStepStrict, hdec]
    rw [if_pos hover]
  · simp only [parseStepFixed, hdec]
    rw [if_neg (by omega : ¬ buf.length < offset + 8), if_pos hover]

/-- Witness for claim C7: the scenario buffer (length declared 10000, 50 bytes
remaining): the strict decoder halts, the fixed decoder resynchronizes at the
value offset 8. -/
theorem c7_witness :
    parseStepStrict c7buf 0 = StepResult.halt ∧
    parseStepFixed c7buf 0 = StepResult.skipTo 8 ∧ (0 : Nat) < 8 := by
  have h := c7_overrun_recovery c7buf 0 c7hdr (by decide) (by decide) (by decide)
  exact ⟨h.1, h.2.1, h.2.2⟩

theorem marchLoop_break (tex : ℚ → ℚ → ℚ) (u : ShaderUniforms) (p : RenderParams)
    (stepV : Vec3) (n : Nat) (st : MarchState)
    (h1 : ¬ (st.accAlpha ≥ 19/20 ∨ st.steps > 200))
    (h2 : st.pos.1 < 0 ∨ st.pos.1 > 1 ∨ st.pos.2.1 < 0 ∨ st.pos.2.1 > 1 ∨
      st.pos.2.2 < 0 ∨ st.pos.2.2 > 1) :
    marchLoop tex u p stepV n st = st := by
  cases n with
  | zero => rfl
  | succ n =>
    simp only [marchLoop]
    rw [if_neg h1, if_pos h2]

theorem finalize_isSome (st : MarchState) : (finalizeFragment st).isSome = true := by
  rw [finalizeFragment]
  by_cases h : st.accAlpha > 0
  · rw [if_pos h]
    simp [divQChecked, ne_of_gt h]
  · rw [if_neg h]
    rfl

theorem intersectAndMarch_outside (tex : ℚ → ℚ → ℚ) (u : ShaderUniforms) (p : RenderParams)
    (dir : Vec3) (tN tF : ℚ) (hcond : ¬ (tN > tF ∨ tF < 0))
    (hout : 1/2 + dir.1 * max 0 tN < 0 ∨ 1/2 + dir.1 * max 0 tN > 1 ∨
      1/2 + dir.2.1 * max 0 tN < 0 ∨ 1/2 + dir.2.1 * max 0 tN > 1 ∨
      1/2 + dir.2.2 * max 0 tN < 0 ∨ 1/2 + dir.2.2 * max 0 tN > 1) :
    intersectAndMarch tex u p dir tN tF = some (0, 0, 0, 0) := by
  rw [intersectAndMarch, if_neg hcond]
  rw [marchLoop_break tex u p (dir.1 * (1/200), dir.2.1 * (1/200), dir.2.2 * (1/200)) 200
    { pos := (1/2 + dir.1 * max 0 tN, 1/2 + dir.2.1 * max 0 tN, 1/2 + dir.2.2 * max 0 tN),
      accColor := (0, 0, 0, 0), accAlpha := 0, steps := 0 }
    (by norm_num) hout]
  simp [finalizeFragment]

/-- Claim C8 (corrected), counterexample: the tangent assertion is false — with
`tNear = tFar = 2` (a non-rejecting tangent configuration) and an all-zero
texture, the fragment is the transparent color `(0,0,0,0)`, not the opaque
black background `(0,0,0,1)`: the rejection test uses strict `tNear > tFar`,
so a tangent ray marches instead of being rejected. -/
theorem c8_counterexample : ¬ claimC8tangent := by
  intro hcl
  have hbg := hcl texZero u0 p0 (1, 0, 0) 2
  have heval : intersectAndMarch texZero u0 p0 (1, 0, 0) 2 2 = some (0, 0, 0, 0) := by
    apply intersectAndMarch_outside
    · norm_num
    · refine Or.inr (Or.inl ?_)
      norm_num [max_def]
  rw [heval] at hbg
  have : (0 : ℚ) = 1 := congrArg (fun q : Vec4 => q.2.2.2) (Option.some.inj hbg)
  norm_num at this

/-- Claim C8 (amended): if the slab test yields `tNear > tFar` or `tFar < 0`
the compositor outputs the opaque background `(0,0,0,1)` without consulting
the volume texture; and for every input the fragment computation succeeds —
the final un-premultiply division is guarded by `accumulatedAlpha > 0` and
never divides by zero (a division by zero would surface as `none`).  A ray
with `tNear == tFar ≥ 0` is not rejected: it marches (see the counterexample). -/
theorem c8_ray_reject :
    ∀ (tex : ℚ → ℚ → ℚ) (u : ShaderUniforms) (p : RenderParams) (dir : Vec3) (tN tF : ℚ),
      (tN > tF ∨ tF < 0 → intersectAndMarch tex u p dir tN tF = some (0, 0, 0, 1)) ∧
      (intersectAndMarch tex u p dir tN tF).isSome = true := by
  intro tex u p dir tN tF
  constructor
  · intro hcond
    rw [intersectAndMarch, if_pos hcond]
  · rw [intersectAndMarch]
    by_cases hcond : tN > tF ∨ tF < 0
    · rw [if_pos hcond]
      rfl
    · rw [if_neg hcond]
      exact finalize_isSome _

/-- Witness for claim C8's amended theorem: a ray with `tFar = -1 < 0` renders
the opaque background. -/
theorem c8_ray_reject_witness :
    intersectAndMarch texZero u0 p0 (1, 0, 0) 0 (-1) = some (0, 0, 0, 1) :=
  (c8_ray_reject texZero u0 p0 (1, 0, 0) 0 (-1)).1 (Or.inr (by norm_num))

/-- Claim C9: at every marching step the windowed intensity is
`clamp((sample - (windowLevel - windowWidth/2)) / windowWidth, 0, 1)` and the
sample is composited iff that value is strictly greater than `threshold/255`;
with threshold 100, window level 128, window width 256 a sample of 50 yields
50/256 ≤ 100/255 and is discarded (the accumulator is unchanged). -/
theorem c9_window_threshold :
    (∀ (p : RenderParams) (density : ℚ) (accColor : Vec4) (accAlpha : ℚ),
      compositeSample p density accColor accAlpha =
        if clampQ ((density - (p.windowLevel - p.windowWidth / 2)) / p.windowWidth) 0 1 >
            p.threshold / 255 then
          accumulateSample p
            (clampQ ((density - (p.windowLevel - p.windowWidth / 2)) / p.windowWidth) 0 1)
            accColor accAlpha
        else (accColor, accAlpha)) ∧
    (clampQ (((50 : ℚ) - (p0.windowLevel - p0.windowWidth / 2)) / p0.windowWidth) 0 1 =
      50 / 256 ∧
     ¬ ((50 : ℚ) / 256 > p0.threshold / 255) ∧
     compositeSample p0 50 (0, 0, 0, 0) 0 = ((0, 0, 0, 0), 0)) := by
  have hkey : ∀ (wL wW d : ℚ),
      (d - (wL - wW * (1/2))) / (wL + wW * (1/2) - (wL - wW * (1/2))) =
      (d - (wL - wW / 2)) / wW := by
    intro wL wW d
    have h1 : wL + wW * (1/2) - (wL - wW * (1/2)) = wW := by ring
    have h2 : wL - wW * (1/2) = wL - wW / 2 := by ring
    rw [h1, h2]
  constructor
  · intro p density accColor accAlpha
    simp only [compositeSample]
    rw [hkey p.windowLevel p.windowWidth density]
  · refine ⟨?_, ?_, ?_⟩
    · show clampQ (((50 : ℚ) - ((128 : ℚ) - (256 : ℚ) / 2)) / (256 : ℚ)) 0 1 = 50 / 256
      rw [clampQ]
      norm_num [max_def, min_def]
    · show ¬ ((50 : ℚ) / 256 > (100 : ℚ) / 255)
      norm_num
    · simp only [compositeSample]
      rw [if_neg ?_]
      have hc : clampQ (((50 : ℚ) - ((128 : ℚ) - (256 : ℚ) * (1/2))) /
          ((128 : ℚ) + (256 : ℚ) * (1/2) - ((128 : ℚ) - (256 : ℚ) * (1/2)))) 0 1 = 50 / 256 := by
        rw [clampQ]
        norm_num [max_def, min_def]
      show ¬ clampQ (((50 : ℚ) - (p0.windowLevel - p0.windowWidth * (1/2))) /
          (p0.windowLevel + p0.windowWidth * (1/2) - (p0.windowLevel - p0.windowWidth * (1/2))))
          0 1 > p0.threshold / 255
      rw [show p0.windowLevel = (128 : ℚ) from rfl, show p0.windowWidth = (256 : ℚ) from rfl,
        show p0.threshold = (100 : ℚ) from rfl, hc]
      norm_num

end CT3D

